import Mathlib

/-!
Verification of the raycasting game core of this repository
(`src/app/game/world.ts` and `src/app/game/page.tsx`).

The TypeScript source computes with IEEE floats; the embedding reads the
same arithmetic over exact rationals (`ℚ`).  Two systematic translation
devices are used and documented at each definition:

* JavaScript `Infinity` values (produced by `1 / 0` in the DDA set-up)
  are represented by `Option ℚ` with `none` standing for `+∞`, together
  with comparison/addition operations that mirror IEEE comparisons with
  `Infinity` (`none` is greater than every `some`).  The `0 * Infinity = NaN`
  corner cannot occur in this code: the factor multiplied by an infinite
  `deltaDist` is `map + 1 - from` with `map = ⌊from⌋`, which is strictly
  positive.

* `Math.hypot` (a square root) has no exact rational value; every use in
  the source feeds either a comparison or a normalisation.  Comparisons
  are embedded in their exact squared form (for `a, b ≥ 0`: `a < b ↔ a² < b²`,
  and for `c > 0`, `dot / dist ≥ c ↔ 0 ≤ dot ∧ c² · dist² ≤ dot²`), which
  decides exactly the same booleans as real-number arithmetic on the source.
  Normalised direction vectors that only *translate* a point (knockback)
  are taken as explicit parameters.
-/

/- The Batteries rational-number operations are `@[irreducible]`, which
blocks the `decide` tactic's evaluation of concrete runs of the embedded
program (the kernel itself ignores reducibility).  Restore the default
transparency for this file. -/
attribute [local semireducible] Rat.add Rat.sub Rat.mul Rat.inv

namespace RaycastGame

/-- Planar point/vector, `Vec2` of `src/app/game/types.ts`. -/
structure Vec2 where
  x : ℚ
  y : ℚ
deriving DecidableEq

/-- The grid map literal `MAP` of `src/app/game/world.ts`. -/
def MAP : List String :=
  [ "111111111111"
  , "110000000001"
  , "101111111101"
  , "101000001101"
  , "101011101101"
  , "110000000001"
  , "111111111111" ]

/-- Spawn x coordinate, `SPAWN.x` of `world.ts`. -/
def spawnX : ℚ := 1079/100

/-- Spawn y coordinate, `SPAWN.y` of `world.ts`. -/
def spawnY : ℚ := 579/100

/-- Declared map width: `MAP[0].length` in `world.ts`. -/
def mkWidth (m : List String) : ℤ := ((m.headD "").length : ℤ)

/-- Declared map height: `MAP.length` in `world.ts`. -/
def mkHeight (m : List String) : ℤ := (m.length : ℤ)

/-- Character of a map cell; `none` models the JavaScript `undefined`
produced by reading past the end of a row or of the row list. -/
def charAtG (m : List String) (x y : ℤ) : Option Char :=
  if 0 ≤ x ∧ 0 ≤ y then (m.get? y.toNat).bind fun row => row.toList.get? x.toNat
  else none

/-- Generic `isWall` of `world.ts`: out-of-range coordinates count as wall,
and an in-range cell is a wall unless its character is `'0'`.  A missing
character (short row, JavaScript `undefined !== '0'`) also counts as wall. -/
def isWallG (m : List String) (x y : ℤ) : Bool :=
  if x < 0 || y < 0 || mkWidth m ≤ x || mkHeight m ≤ y then true
  else charAtG m x y != some '0'

/-- The `isWall` of `world.ts`, on the shipped `MAP`. -/
def isWall (x y : ℤ) : Bool := isWallG MAP x y

/-- State of a DDA grid traversal (the local variables `mapX, mapY, stepX,
stepY, sideDistX, sideDistY, deltaDistX, deltaDistY` shared by `isOccluded`
in `world.ts` and `castRayToWall` in `page.tsx`).  `Option ℚ` values model
JavaScript numbers that may be `Infinity` (`none`). -/
structure DDAState where
  mapX : ℤ
  mapY : ℤ
  stepX : ℤ
  stepY : ℤ
  sideDistX : Option ℚ
  sideDistY : Option ℚ
  deltaDistX : Option ℚ
  deltaDistY : Option ℚ
deriving DecidableEq

/-- IEEE comparison `a < b` where `none` is `+∞`: `Infinity < y` is false,
`x < Infinity` is true for finite `x`, `Infinity < Infinity` is false. -/
def oLt : Option ℚ → Option ℚ → Bool
  | some a, some b => decide (a < b)
  | some _, none => true
  | none, _ => false

/-- Addition where `none` is `+∞` (`Infinity + d = Infinity`). -/
def oAdd : Option ℚ → Option ℚ → Option ℚ
  | some a, some b => some (a + b)
  | _, _ => none

/-- One-axis DDA set-up, the `if (rayDir < 0) ... else ...` blocks of the
source: returns `(step, sideDist, deltaDist)`, with the cell index `⌊fromC⌋`
implicit.  For `d = 0` the source's `deltaDist = Math.abs(1/0) = Infinity`
and `sideDist = (map + 1 - from) * Infinity = Infinity` (the factor is
strictly positive because `⌊fromC⌋ + 1 > fromC`), modelled by `none`. -/
def axisInit (fromC : ℚ) (d : ℚ) : ℤ × Option ℚ × Option ℚ :=
  if d < 0 then (-1, some ((fromC - ⌊fromC⌋) * (1 / (-d))), some (1 / (-d)))
  else if d = 0 then (1, none, none)
  else (1, some (((⌊fromC⌋ : ℚ) + 1 - fromC) * (1 / d)), some (1 / d))

/-- Initial DDA state for a ray from `f` with direction `d`.  For
`isOccluded` the direction is the un-normalised difference `to - from` and
all distances are measured in units of the segment parameter `t ∈ [0,1]`
(the source divides by `distance = Math.hypot dx dy`; dividing every
`sideDist`/`deltaDist`/`travelled` by `distance` rescales all quantities by
the same positive factor and leaves every comparison unchanged). -/
def ddaInit (f d : Vec2) : DDAState :=
  let ax := axisInit f.x d.x
  let ay := axisInit f.y d.y
  { mapX := ⌊f.x⌋, mapY := ⌊f.y⌋, stepX := ax.1, stepY := ay.1,
    sideDistX := ax.2.1, sideDistY := ay.2.1,
    deltaDistX := ax.2.2, deltaDistY := ay.2.2 }

/-- One DDA step (`if (sideDistX < sideDistY) {...} else {...}` in both
loops of the source).  Returns the new state, the distance at which the
crossing into the new cell happens (the source's `travelled` update; the
chosen `sideDist` is always finite, `getD 0` is never taken when the ray
has a non-zero component on the chosen axis), and the hit side (0 = x-step,
1 = y-step). -/
def ddaStep (st : DDAState) : DDAState × ℚ × ℕ :=
  if oLt st.sideDistX st.sideDistY then
    ({ st with mapX := st.mapX + st.stepX,
               sideDistX := oAdd st.sideDistX st.deltaDistX },
     st.sideDistX.getD 0, 0)
  else
    ({ st with mapY := st.mapY + st.stepY,
               sideDistY := oAdd st.sideDistY st.deltaDistY },
     st.sideDistY.getD 0, 1)

/-- The `while (hit === 0)` loop of `castRayToWall` (`page.tsx`), with
explicit fuel (the source loop is unbounded; the termination theorem below
shows fuel `width + height` always suffices from inside the map).  Returns
the final state and the hit side. -/
def castLoop : DDAState → ℕ → Option (DDAState × ℕ)
  | _, 0 => none
  | st, fuel + 1 =>
    if isWall (ddaStep st).1.mapX (ddaStep st).1.mapY then
      some ((ddaStep st).1, (ddaStep st).2.2)
    else castLoop (ddaStep st).1 fuel

/-- Termination measure for `castLoop` on the shipped 12 × 7 map: an upper
bound on the number of steps before the moving cell index leaves the grid
(each step moves `mapX` or `mapY` by its fixed `±1` step). -/
def castBudget (st : DDAState) : ℕ :=
  (if st.stepX = 1 then 12 - st.mapX else st.mapX + 1).toNat +
  (if st.stepY = 1 then 7 - st.mapY else st.mapY + 1).toNat

/-- Result of `castRayToWall`: hit cell, side, perpendicular distance and
hit point. -/
structure WallHit where
  mapX : ℤ
  mapY : ℤ
  side : ℕ
  dist : ℚ
  x : ℚ
  y : ℚ
deriving DecidableEq

/-- The `castRayToWall` of `page.tsx`.  `perpWallDist` is
`(map - from + (1 - step)/2) / dir` on the hit axis; the hit point is
`from + dir * perpWallDist`. -/
def castRayToWall (f d : Vec2) : Option WallHit :=
  (castLoop (ddaInit f d) 64).map fun r =>
    let st := r.1
    let dist :=
      if r.2 = 0 then ((st.mapX : ℚ) - f.x + (1 - (st.stepX : ℚ)) / 2) / d.x
      else ((st.mapY : ℚ) - f.y + (1 - (st.stepY : ℚ)) / 2) / d.y
    { mapX := st.mapX, mapY := st.mapY, side := r.2, dist := dist,
      x := f.x + d.x * dist, y := f.y + d.y * dist }

/-- The `while (travelled < distance)` loop of `isOccluded` (`world.ts`),
in units of the segment parameter (`travelled / distance`), with explicit
fuel.  On finding a wall the source returns `travelled < distance - 0.05`;
in segment units with `t = travelled / distance` and `distSq = distance²`
this is exactly `t < 1 ∧ (1 - t)² * distSq > 0.05²` (multiply both sides of
`0.05 < (1 - t) * distance` by the positive `(1 - t) * distance`... more
precisely: for `t < 1` both sides of `0.05 < (1-t)·distance` are positive
so squaring is exact, and for `t ≥ 1` the source comparison is false). -/
def occLoop : DDAState → ℚ → ℚ → ℕ → Bool
  | _, _, _, 0 => false
  | st, travelled, distSq, fuel + 1 =>
    if travelled < 1 then
      if isWall (ddaStep st).1.mapX (ddaStep st).1.mapY then
        decide ((ddaStep st).2.1 < 1 ∧ 1/400 < distSq * (1 - (ddaStep st).2.1)^2)
      else occLoop (ddaStep st).1 (ddaStep st).2.1 distSq fuel
    else false

/-- The `isOccluded` of `world.ts`.  The source's early return
`distance < 0.001` is the exact squared comparison `distSq < 10⁻⁶`. -/
def isOccluded (f t : Vec2) : Bool :=
  let dx := t.x - f.x
  let dy := t.y - f.y
  let distSq := dx^2 + dy^2
  if distSq < 1/1000000 then false
  else occLoop (ddaInit f ⟨dx, dy⟩) 0 distSq 64

/-- Per-frame time step of the render loop (`page.tsx`, start of `render`):
`dt = Math.min(0.05, lastTime ? (time - lastTime) * 0.001 : 0.016)`.
JavaScript truthiness of `lastTime` is `lastTime ≠ 0`. -/
def computeDt (time lastTime : ℚ) : ℚ :=
  min (1/20) (if lastTime = 0 then 2/125 else (time - lastTime) * (1/1000))

/-- Player collision radius (`radius = 0.2` in `page.tsx`). -/
def radius : ℚ := 1/5

/-- Enemy collision radius (`enemyRadius = 0.18`). -/
def enemyRadius : ℚ := 9/50

/-- JavaScript `Math.sign`. -/
def jsSign (q : ℚ) : ℚ := if 0 < q then 1 else if q < 0 then -1 else 0

/-- First statement of `moveWithCollision` (`page.tsx`): the x axis is
accepted only when the leading edge (`nextX ± radius` in the direction of
travel) at the current row is not a wall. -/
def moveXStep (pos : Vec2) (nextX : ℚ) : Vec2 :=
  if isWall ⌊nextX + jsSign (nextX - pos.x) * radius⌋ ⌊pos.y⌋ then pos
  else ⟨nextX, pos.y⟩

/-- Second statement of `moveWithCollision` (`page.tsx`): the y axis
update, which the source runs on the already x-updated position. -/
def moveYStep (pos : Vec2) (nextY : ℚ) : Vec2 :=
  if isWall ⌊pos.x⌋ ⌊nextY + jsSign (nextY - pos.y) * radius⌋ then pos
  else ⟨pos.x, nextY⟩

/-- The `moveWithCollision` of `page.tsx`: a proposed absolute position
`next` is applied per axis; each axis is accepted only when the leading
edge at the other coordinate's current cell is not a wall.  The y check
uses the already-updated x; the sign for the y edge uses the unchanged y,
exactly as in the source. -/
def moveWithCollision (pos next : Vec2) : Vec2 :=
  moveYStep (moveXStep pos next.x) next.y

/-- The `canOccupy` of `page.tsx`: all four corners of the radius-`r` box
around `(x, y)` are in passable cells. -/
def canOccupy (x y r : ℚ) : Bool :=
  !isWall ⌊x - r⌋ ⌊y - r⌋ && !isWall ⌊x + r⌋ ⌊y - r⌋ &&
  !isWall ⌊x - r⌋ ⌊y + r⌋ && !isWall ⌊x + r⌋ ⌊y + r⌋

/-- The x half of the push-out in `resolvePlayerEnemyCollision`
(`page.tsx`): `if (canOccupy(pushX, player.pos.y, radius)) pos.x = pushX`. -/
def pushXStep (pos : Vec2) (tx : ℚ) : Vec2 :=
  if canOccupy tx pos.y radius then ⟨tx, pos.y⟩ else pos

/-- The y half of the push-out, run on the already x-updated position:
`if (canOccupy(player.pos.x, pushY, radius)) pos.y = pushY`. -/
def pushYStep (pos : Vec2) (ty : ℚ) : Vec2 :=
  if canOccupy pos.x ty radius then ⟨pos.x, ty⟩ else pos

/-- The per-enemy body of `resolvePlayerEnemyCollision` in `page.tsx` with
the push target abstracted: the source computes
`push = pos + (separation normal) · overlap` (an irrational
normalisation); each push axis is applied only when guarded by
`canOccupy`, the y check using the already-updated x.  The theorems below
hold for an arbitrary push target, hence for the source's particular one. -/
def applyPushGuarded (pos target : Vec2) : Vec2 :=
  pushYStep (pushXStep pos target.x) target.y

/-- One per-frame player-position event: a movement displacement (the
source proposes `next = pos + unitdir · speed · dt`, so the displacement
norm is at most `speed · dtMax = 2.6 · 0.05 = 0.13`) or an enemy push-out. -/
inductive MoveOp
  | move (d : Vec2)
  | push (target : Vec2)
deriving DecidableEq

/-- Apply one player-position event. -/
def applyOp (pos : Vec2) : MoveOp → Vec2
  | .move d => moveWithCollision pos ⟨pos.x + d.x, pos.y + d.y⟩
  | .push t => applyPushGuarded pos t

/-- Run a sequence of per-frame player-position events. -/
def simulate : Vec2 → List MoveOp → Vec2 :=
  List.foldl applyOp

/-- An event is within the engine's per-frame bounds: movement displacement
components at most `speed · dtMax = 0.13` in magnitude (implied by the
source's Euclidean bound); push targets are unconstrained. -/
def opOK : MoveOp → Prop
  | .move d => |d.x| ≤ 13/100 ∧ |d.y| ≤ 13/100
  | .push _ => True

/-- Squared distance from a point to the closed unit cell `[cx,cx+1]×[cy,cy+1]`;
`radius² - distSq` measures how deeply the player circle overlaps the cell. -/
def distSqPointToCell (p : Vec2) (cx cy : ℤ) : ℚ :=
  (p.x - max (cx : ℚ) (min p.x ((cx : ℚ) + 1)))^2 +
  (p.y - max (cy : ℚ) (min p.y ((cy : ℚ) + 1)))^2

/-- JavaScript truncation toward zero (the integer part used by `%`). -/
def jsTrunc (q : ℚ) : ℤ := if 0 ≤ q then ⌊q⌋ else ⌈q⌉

/-- JavaScript remainder `a % b` (sign of the dividend). -/
def jsMod (a b : ℚ) : ℚ := a - b * (jsTrunc (a / b) : ℚ)

/-- Static enemy definition (`EnemyDef` of `types.ts`). -/
structure EnemyDef where
  base : Vec2
  patrol : Vec2
  speed : ℚ
  phase : ℚ
deriving DecidableEq

/-- Runtime enemy state (`EnemyRuntime` of `types.ts`; `patrolDir` is `1`
or `-1`, carried as a rational because the source does arithmetic on it). -/
structure EnemyState where
  pos : Vec2
  patrolT : ℚ
  patrolDir : ℚ
  chaseUntil : ℚ
  hitStunUntil : ℚ
  deadUntil : ℚ
  lastDamageAt : ℚ
  health : ℚ
  animTime : ℚ
deriving DecidableEq

/-- Maximum enemy health (`enemyMaxHealth = 2` in `page.tsx`). -/
def enemyMaxHealth : ℚ := 2

/-- Enemy respawn delay in ms (`enemyRespawnMs = 3000`). -/
def enemyRespawnMs : ℚ := 3000

/-- Enemy knockback distance (`enemyKnockbackDistance = 0.42`). -/
def enemyKnockbackDistance : ℚ := 21/50

/-- Enemy hit-stun duration in ms (`enemyHitStunMs = 220`). -/
def enemyHitStunMs : ℚ := 220

/-- Chase memory in ms (`enemyForgetMs = 1700`). -/
def enemyForgetMs : ℚ := 1700

/-- The `enemyStates` initialiser of `page.tsx`:
`phase = ((enemy.phase % 2) + 2) % 2`, direction `+1` and `t = phase` on
the first half of the cycle, `-1` and `t = 2 - phase` on the second. -/
def initEnemyState (e : EnemyDef) : EnemyState :=
  let phase := jsMod (jsMod e.phase 2 + 2) 2
  let patrolDir : ℚ := if phase ≤ 1 then 1 else -1
  let patrolT : ℚ := if phase ≤ 1 then phase else 2 - phase
  { pos := ⟨e.base.x + e.patrol.x * patrolT, e.base.y + e.patrol.y * patrolT⟩,
    patrolT := patrolT, patrolDir := patrolDir,
    chaseUntil := 0, hitStunUntil := 0, deadUntil := 0,
    lastDamageAt := -99999, health := enemyMaxHealth, animTime := 0 }

/-- The patrol ping-pong update of `updateEnemies` (`page.tsx`):
`t += dir · speed · dt`, clamped to `[0,1]` with a direction flip at each
endpoint. -/
def patrolAdvance (t dir speed dt : ℚ) : ℚ × ℚ :=
  let t' := t + dir * speed * dt
  if 1 < t' then (1, -1)
  else if t' < 0 then (0, 1)
  else (t', dir)

/-- The `knockbackEnemy` of `page.tsx`, with the unit push direction `n`
taken as a parameter (the source computes `n = (enemy.pos - from) / len`
with `len = Math.hypot ... || 1`, an irrational normalisation; every
theorem below holds for an arbitrary `n`).  Tries scales `1, 0.66, 0.33`
of the knockback distance and applies the first that lands in passable
space, otherwise leaves the position unchanged. -/
def knockbackEnemy (n : Vec2) (e : EnemyState) : EnemyState :=
  let try1 := ⟨e.pos.x + n.x * enemyKnockbackDistance * 1,
               e.pos.y + n.y * enemyKnockbackDistance * 1⟩
  let try2 := ⟨e.pos.x + n.x * enemyKnockbackDistance * (33/50),
               e.pos.y + n.y * enemyKnockbackDistance * (33/50)⟩
  let try3 : Vec2 := ⟨e.pos.x + n.x * enemyKnockbackDistance * (33/100),
               e.pos.y + n.y * enemyKnockbackDistance * (33/100)⟩
  if canOccupy try1.x try1.y enemyRadius then { e with pos := try1 }
  else if canOccupy try2.x try2.y enemyRadius then { e with pos := try2 }
  else if canOccupy try3.x try3.y enemyRadius then { e with pos := try3 }
  else e

/-- The enemy-hit block of the projectile-resolution code in `render`
(`page.tsx`): if the enemy is alive at time `now`, lose one health point
(floored at 0), enter hit-stun, re-arm the chase window, apply knockback;
if health reached 0, enter the dead state: `deadUntil = now + respawn`,
chase and stun cleared, patrol parameter and direction reset, health
restored to maximum and position reset to the spawn base. -/
def resolveEnemyHit (n : Vec2) (now : ℚ) (edef : EnemyDef) (e : EnemyState) : EnemyState :=
  if e.deadUntil ≤ now then
    let e1 := { e with health := max 0 (e.health - 1),
                       hitStunUntil := now + enemyHitStunMs,
                       chaseUntil := now + enemyForgetMs }
    let e2 := knockbackEnemy n e1
    if e2.health ≤ 0 then
      { e2 with deadUntil := now + enemyRespawnMs, chaseUntil := 0,
                hitStunUntil := 0, patrolT := 0, patrolDir := 1,
                health := enemyMaxHealth, pos := edef.base }
    else e2
  else e

/-- A live projectile (`Projectile` of `page.tsx`; `endPt` is the source's
`end`, a reserved word in Lean).  Times are in milliseconds. -/
structure Projectile where
  startPt : Vec2
  endPt : Vec2
  startTime : ℚ
  duration : ℚ
  hitAt : ℚ
  hitPoint : Vec2
  hitEnemyIndex : Option ℕ
  resolved : Bool
  flashUntil : ℚ
deriving DecidableEq

/-- One frame of the projectile update loop in `render` (`page.tsx`) for a
single projectile at frame time `now`:
`t = min 1 ((now - startTime) / duration)`; if `t ≥ 1` and
`now > hitAt + 200` the projectile is removed (`none`); otherwise, if not
yet resolved and `now ≥ hitAt`, the `resolved` flag is set and the impact
flash window opens. -/
def stepP (p : Projectile) (now : ℚ) : Option Projectile :=
  if 1 ≤ min 1 ((now - p.startTime) / p.duration) ∧ p.hitAt + 200 < now then none
  else if !p.resolved ∧ p.hitAt ≤ now then
    some { p with resolved := true, flashUntil := now + 140 }
  else some p

/-- Run the per-frame projectile update over a list of frame times,
stopping if the projectile is removed. -/
def runP : Option Projectile → List ℚ → Option Projectile
  | op, [] => op
  | none, _ :: _ => none
  | some p, now :: ts => runP (stepP p now) ts

/-- Number of `false → true` transitions of the `resolved` flag over a
list of frame times. -/
def resolveCount (p : Projectile) : List ℚ → ℕ
  | [] => 0
  | now :: ts =>
    (stepP p now).elim 0
      fun q => (if q.resolved && !p.resolved then 1 else 0) + resolveCount q ts

/-- The enemy fields read by `tryShoot` (`page.tsx`). -/
structure ShotTarget where
  pos : Vec2
  deadUntil : ℚ
deriving DecidableEq

/-- Squared distance from the shooter to a target. -/
def shotDistSq (ppos : Vec2) (e : ShotTarget) : ℚ :=
  (e.pos.x - ppos.x)^2 + (e.pos.y - ppos.y)^2

/-- The per-enemy filter of `tryShoot`: the enemy is not skipped exactly
when it is alive, `dist ≥ 0.001`, the normalised forward projection
`dot/dist` is at least `0.98`, the perpendicular offset `|cross|` is at
most the hit radius `0.35`, and the line of sight is clear.  The two
square-root comparisons are embedded in exact squared form:
`dist ≥ 0.001 ↔ distSq ≥ 10⁻⁶` and, because `dist > 0`,
`dot/dist ≥ 0.98 ↔ (0 ≤ dot ∧ 0.98² · distSq ≤ dot²)`. -/
def shotQualifies (ppos pdir : Vec2) (time : ℚ) (e : ShotTarget) : Bool :=
  let dx := e.pos.x - ppos.x
  let dy := e.pos.y - ppos.y
  let dSq := dx^2 + dy^2
  let dot := dx * pdir.x + dy * pdir.y
  let cross := dx * pdir.y - dy * pdir.x
  decide (e.deadUntil ≤ time ∧ 1/1000000 ≤ dSq ∧ 0 ≤ dot ∧
          (49/50)^2 * dSq ≤ dot^2 ∧ cross^2 ≤ (7/20)^2) &&
  !isOccluded ppos e.pos

/-- The `dist < bestDistance` comparison of `tryShoot`, in exact squared
form for the non-negative distances involved; `none` is the initial
`bestDistance = Infinity`, smaller than nothing. -/
def betterThan (dSq : ℚ) : Option (ℕ × ℚ) → Bool
  | none => true
  | some b => decide (dSq < b.2)

/-- The accumulator loop of `tryShoot` over the enemy list: keeps the
index and squared distance of the nearest non-skipped enemy so far
(the strict inequality keeps the first of equally near enemies). -/
def selectGo (ppos pdir : Vec2) (time : ℚ) : ℕ → List ShotTarget → Option (ℕ × ℚ) → Option (ℕ × ℚ)
  | _, [], best => best
  | i, e :: es, best =>
    selectGo ppos pdir time (i + 1) es
      (if shotQualifies ppos pdir time e && betterThan (shotDistSq ppos e) best
       then some (i, shotDistSq ppos e) else best)

/-- Nearest qualifying enemy of `tryShoot` (`bestIndex`/`bestDistance`). -/
def selectBest (ppos pdir : Vec2) (time : ℚ) (es : List ShotTarget) : Option (ℕ × ℚ) :=
  selectGo ppos pdir time 0 es none

/-- Outcome of a shot: the enemy index it resolved against (or `none` for
a wall hit), the impact point, and the wall distance along the ray. -/
structure ShotResolution where
  hitEnemyIndex : Option ℕ
  hitPoint : Vec2
  wallDist : ℚ
deriving DecidableEq

/-- The resolution part of `tryShoot` (`page.tsx`): cast the facing ray to
the wall; if a qualifying enemy exists and is strictly nearer than the
wall (`bestDistance < wallHit.dist`, embedded as the exact squared
comparison `0 < wallDist ∧ bestSq < wallDist²`) and — the source re-checks —
is still alive, resolve against it, else against the wall point.  `none`
only when the ray loop fuel runs out (the termination theorem below shows
it never does from inside the map).  The projectile timing fields
(`hitAt`, `duration`) divide a square-root distance by the travel speed
and are not part of the resolution. -/
def tryShootResolve (ppos pdir : Vec2) (time : ℚ) (es : List ShotTarget) : Option ShotResolution :=
  (castRayToWall ppos pdir).map fun w =>
    match selectBest ppos pdir time es with
    | some (i, bSq) =>
      if (0 : ℚ) < w.dist ∧ bSq < w.dist ^ 2 then
        match es.get? i with
        | some e =>
          if e.deadUntil ≤ time then
            { hitEnemyIndex := some i, hitPoint := e.pos, wallDist := w.dist }
          else { hitEnemyIndex := none, hitPoint := ⟨w.x, w.y⟩, wallDist := w.dist }
        | none => { hitEnemyIndex := none, hitPoint := ⟨w.x, w.y⟩, wallDist := w.dist }
      else { hitEnemyIndex := none, hitPoint := ⟨w.x, w.y⟩, wallDist := w.dist }
    | none => { hitEnemyIndex := none, hitPoint := ⟨w.x, w.y⟩, wallDist := w.dist }

/-- The aim-cone qualification exactly as the claim states it (spec §8,
"Hit resolution determinism"): alive, forward projection at least `0.98`,
perpendicular offset at most the hit radius, line of sight clear — with
NO minimum distance.  Square roots are embedded in exact squared form as
in `shotQualifies`. -/
def specAimQualifies (ppos pdir : Vec2) (time : ℚ) (e : ShotTarget) : Bool :=
  let dx := e.pos.x - ppos.x
  let dy := e.pos.y - ppos.y
  let dSq := dx^2 + dy^2
  let dot := dx * pdir.x + dy * pdir.y
  let cross := dx * pdir.y - dy * pdir.x
  decide (e.deadUntil ≤ time ∧ 0 ≤ dot ∧ (49/50)^2 * dSq ≤ dot^2 ∧
          cross^2 ≤ (7/20)^2) &&
  !isOccluded ppos e.pos

/-- The aim-cone qualification of the claim amended with the source's
minimum-distance skip (`dist ≥ 0.001`), with the occlusion factor removed —
it is the claim's standing "no occlusion" premise.  When the line of sight
to the target is clear this coincides with `shotQualifies`. -/
def aimConeOK (ppos pdir : Vec2) (time : ℚ) (e : ShotTarget) : Bool :=
  let dx := e.pos.x - ppos.x
  let dy := e.pos.y - ppos.y
  let dSq := dx^2 + dy^2
  let dot := dx * pdir.x + dy * pdir.y
  let cross := dx * pdir.y - dy * pdir.x
  decide (e.deadUntil ≤ time ∧ 1/1000000 ≤ dSq ∧ 0 ≤ dot ∧
          (49/50)^2 * dSq ≤ dot^2 ∧ cross^2 ≤ (7/20)^2)

/-- Maximum number of live projectiles (`maxProjectiles = 10`). -/
def maxProjectiles : ℕ := 10

/-- Projectile ring push of `tryShoot`: append, then drop the oldest when
over capacity (`projectiles.push(...); if (length > max) shift()`). -/
def pushProjectile (ps : List Projectile) (p : Projectile) : List Projectile :=
  let ps' := ps ++ [p]
  if maxProjectiles < ps'.length then ps'.drop 1 else ps'

/-- Observable outcome of a pointer-down event. -/
inductive PointerOutcome
  | requestLock
  | ignored
  | fired
deriving DecidableEq

/-- The `handlePointerDown` of `page.tsx`: when the pointer is not locked,
only request pointer capture; when the player is dead
(`playerDeadUntil > now`), do nothing; otherwise fire (`tryShoot`, which
pushes `shot` into the projectile ring).  The fired projectile record is a
parameter because its timing fields involve a square root. -/
def handlePointerDown (pointerLocked : Bool) (playerDeadUntil now : ℚ)
    (ps : List Projectile) (shot : Projectile) : List Projectile × PointerOutcome :=
  if !pointerLocked then (ps, .requestLock)
  else if now < playerDeadUntil then (ps, .ignored)
  else (pushProjectile ps shot, .fired)

/-- A constructed world: the module-level constants of `world.ts`
(`MAP`, `SPAWN`, `mapWidth`, `mapHeight`).  The source performs no
validation whatsoever at construction: this function is total. -/
structure World where
  map : List String
  width : ℤ
  height : ℤ
  spawnPosX : ℚ
  spawnPosY : ℚ
deriving DecidableEq

/-- World construction as `world.ts` performs it: record the literals and
derive width/height.  There is no error channel. -/
def mkWorld (m : List String) (sx sy : ℚ) : World :=
  { map := m, width := mkWidth m, height := mkHeight m,
    spawnPosX := sx, spawnPosY := sy }

/-- Modelled from the spec: the construction-time validation that spec §7
requires ("a row shorter than the declared width, or a spawn point on a
wall cell ... must be rejected at construction time") — no such check
exists anywhere in `world.ts` or `page.tsx`. -/
def wellFormedCfg (m : List String) (sx sy : ℚ) : Bool :=
  m.all (fun row => (row.length : ℤ) == mkWidth m) && !isWallG m ⌊sx⌋ ⌊sy⌋

/-- A malformed map: second row shorter than the declared width 2. -/
def badMap : List String := ["11", "1"]

/-- Passable cells of the shipped `MAP`. -/
def cellCentersPassable : List (ℤ × ℤ) :=
  (((List.range 7).flatMap fun y => (List.range 12).map fun x => ((x : ℤ), (y : ℤ)))).filter
    fun c => !isWall c.1 c.2

/-- Finite occlusion-symmetry check: over every ordered pair of passable
cell centres that share a row or a column, `isOccluded` agrees with its
transpose. -/
def symCheck : Bool :=
  cellCentersPassable.all fun a => cellCentersPassable.all fun b =>
    !(a.1 == b.1 || a.2 == b.2) ||
      (isOccluded ⟨(a.1 : ℚ) + 1/2, (a.2 : ℚ) + 1/2⟩ ⟨(b.1 : ℚ) + 1/2, (b.2 : ℚ) + 1/2⟩
        == isOccluded ⟨(b.1 : ℚ) + 1/2, (b.2 : ℚ) + 1/2⟩ ⟨(a.1 : ℚ) + 1/2, (a.2 : ℚ) + 1/2⟩)

instance decOpOK : (op : MoveOp) → Decidable (opOK op)
  | .move _ => inferInstanceAs (Decidable (_ ∧ _))
  | .push _ => inferInstanceAs (Decidable True)

/-- A concrete projectile used in witnesses and counterexamples:
fired at t = 0 toward a point one second away, impact scheduled at 1000ms. -/
def exampleShot : Projectile :=
  { startPt := ⟨0, 0⟩, endPt := ⟨1, 0⟩, startTime := 0, duration := 1000,
    hitAt := 1000, hitPoint := ⟨1, 0⟩, hitEnemyIndex := none,
    resolved := false, flashUntil := 0 }

/-- The movement-input trace used to refute the collision-containment
claim: from the spawn pose, walk west along the open row 5, north up the
open column 7, then west along row 3 until the player circle hangs over
the wall cell `(6,4)` below. Every displacement obeys the per-frame bound. -/
def cexOps : List MoveOp :=
  (List.replicate 25 (MoveOp.move ⟨-13/100, 0⟩) ++
    (List.replicate 14 (MoveOp.move ⟨0, -13/100⟩) ++ [MoveOp.move ⟨0, -7/100⟩])) ++
  List.replicate 5 (MoveOp.move ⟨-13/100, 0⟩)

/-! ## Helper lemmas -/

theorem knockbackEnemy_health (n : Vec2) (e : EnemyState) :
    (knockbackEnemy n e).health = e.health := by
  unfold knockbackEnemy
  dsimp only
  split
  · rfl
  · split
    · rfl
    · split <;> rfl

theorem jsMod_two_nonneg {a : ℚ} (h : 0 ≤ a) :
    0 ≤ jsMod a 2 ∧ jsMod a 2 < 2 := by
  have hdiv : (0:ℚ) ≤ a / 2 := by positivity
  have htr : jsTrunc (a / 2) = ⌊a / 2⌋ := if_pos hdiv
  have h1 : (⌊a / 2⌋ : ℚ) ≤ a / 2 := Int.floor_le _
  have h2 : a / 2 < ⌊a / 2⌋ + 1 := Int.lt_floor_add_one _
  unfold jsMod
  rw [htr]
  constructor <;> linarith

theorem jsMod_two_neg {a : ℚ} (h : a < 0) :
    -2 < jsMod a 2 ∧ jsMod a 2 ≤ 0 := by
  have hdiv : ¬ (0:ℚ) ≤ a / 2 := by
    intro hc
    nlinarith
  have htr : jsTrunc (a / 2) = ⌈a / 2⌉ := if_neg hdiv
  have h1 : a / 2 ≤ (⌈a / 2⌉ : ℚ) := Int.le_ceil _
  have h2 : (⌈a / 2⌉ : ℚ) < a / 2 + 1 := Int.ceil_lt_add_one _
  unfold jsMod
  rw [htr]
  constructor <;> linarith

theorem normPhase_mem (p : ℚ) :
    0 ≤ jsMod (jsMod p 2 + 2) 2 ∧ jsMod (jsMod p 2 + 2) 2 < 2 := by
  have hin : 0 ≤ jsMod p 2 + 2 := by
    rcases le_or_lt 0 p with h | h
    · have := jsMod_two_nonneg h
      linarith [this.1]
    · have := jsMod_two_neg h
      linarith [this.1]
  exact jsMod_two_nonneg hin

/-! ## C8 -/

/-- C8: on every frame the simulation step is computed from the
consecutive timestamps and clamped to at most 0.05 s, whatever the gap
between callbacks was. -/
theorem C8_dt_clamped (time lastTime : ℚ) :
    computeDt time lastTime ≤ 1/20 ∧
    (lastTime ≠ 0 → computeDt time lastTime = min (1/20) ((time - lastTime) / 1000)) := by
  refine ⟨min_le_left _ _, fun h => ?_⟩
  unfold computeDt
  rw [if_neg h, mul_one_div]

/-- Witness for C8 at a concrete frame pair (16 ms elapsed). -/
theorem C8_witness :
    computeDt 1016 1000 ≤ 1/20 ∧
    computeDt 1016 1000 = min (1/20) ((1016 - 1000) / 1000) :=
  ⟨(C8_dt_clamped 1016 1000).1, (C8_dt_clamped 1016 1000).2 (by norm_num)⟩

/-! ## C10 -/

/-- C10: a pointer-down event creates a projectile exactly when the
pointer is already captured and the player is alive; when unlocked it only
requests capture and leaves the projectile list unchanged; when the player
is dead it does nothing. -/
theorem C10_pointer_fire_guard (locked : Bool) (deadUntil now : ℚ)
    (ps : List Projectile) (shot : Projectile) :
    ((handlePointerDown locked deadUntil now ps shot).2 = .fired ↔
        locked = true ∧ deadUntil ≤ now) ∧
    (locked = false → handlePointerDown locked deadUntil now ps shot = (ps, .requestLock)) ∧
    (locked = true → now < deadUntil →
        handlePointerDown locked deadUntil now ps shot = (ps, .ignored)) ∧
    ((handlePointerDown locked deadUntil now ps shot).2 = .fired →
        (handlePointerDown locked deadUntil now ps shot).1 = pushProjectile ps shot) ∧
    ((handlePointerDown locked deadUntil now ps shot).2 ≠ .fired →
        (handlePointerDown locked deadUntil now ps shot).1 = ps) := by
  unfold handlePointerDown
  cases locked with
  | false => simp
  | true =>
    by_cases h : now < deadUntil
    · simp [h]
    · have hle : deadUntil ≤ now := le_of_not_lt h
      simp [h, hle]

/-- Witness for C10: locked and alive, the event fires and pushes the shot. -/
theorem C10_witness :
    (handlePointerDown true 0 5 [] exampleShot).2 = .fired ∧
    (handlePointerDown true 0 5 [] exampleShot).1 = pushProjectile [] exampleShot := by
  have h := C10_pointer_fire_guard true 0 5 [] exampleShot
  have hf : (handlePointerDown true 0 5 [] exampleShot).2 = .fired :=
    h.1.mpr ⟨rfl, by norm_num⟩
  exact ⟨hf, h.2.2.2.1 hf⟩

/-! ## C7 -/

/-- C7 counterexample: a map whose second row is shorter than the declared
width is not rejected — `mkWorld` (the construction `world.ts` actually
performs: record the literals, derive width and height) is total and
succeeds on it, the spec-modelled validator rejects it, and the missing
cell is discovered only during traversal, where it reads as a wall. -/
theorem C7_counterexample :
    mkWorld badMap (1/2) (1/2) =
      { map := badMap, width := 2, height := 2, spawnPosX := 1/2, spawnPosY := 1/2 } ∧
    wellFormedCfg badMap (1/2) (1/2) = false ∧
    isWallG badMap 1 1 = true := by
  exact ⟨by decide, by decide, by decide⟩

/-- C7 amended: `world.ts` performs no construction-time validation at all
(`mkWorld` is total and records any configuration verbatim); a malformed
row is instead absorbed during traversal, where a missing cell character
reads as a wall; the shipped configuration happens to be well formed (all
rows have the declared width and the spawn cell is passable). -/
theorem C7_construction (m : List String) (x y : ℤ) :
    mkWorld m spawnX spawnY =
      { map := m, width := mkWidth m, height := mkHeight m,
        spawnPosX := spawnX, spawnPosY := spawnY } ∧
    (charAtG m x y = none → isWallG m x y = true) ∧
    wellFormedCfg MAP spawnX spawnY = true ∧
    isWall ⌊spawnX⌋ ⌊spawnY⌋ = false := by
  refine ⟨rfl, fun h => ?_, by decide, by decide⟩
  unfold isWallG
  split
  · rfl
  · rw [h]
    rfl

/-- Witness for C7 at the malformed map: the missing cell `(1,1)` of
`badMap` reads as a wall during traversal. -/
theorem C7_witness : isWallG badMap 1 1 = true :=
  (C7_construction badMap 1 1).2.1 (by decide)

/-! ## C4 -/

theorem resolveEnemyHit_death (n : Vec2) (now : ℚ) (edef : EnemyDef) (e : EnemyState)
    (halive : e.deadUntil ≤ now) (hlow : e.health ≤ 1) :
    (resolveEnemyHit n now edef e).deadUntil = now + enemyRespawnMs ∧
    (resolveEnemyHit n now edef e).health = enemyMaxHealth ∧
    (resolveEnemyHit n now edef e).patrolT = 0 ∧
    (resolveEnemyHit n now edef e).patrolDir = 1 ∧
    (resolveEnemyHit n now edef e).pos = edef.base ∧
    (resolveEnemyHit n now edef e).chaseUntil = 0 ∧
    (resolveEnemyHit n now edef e).hitStunUntil = 0 := by
  have hdead :
      (knockbackEnemy n
        { e with health := max 0 (e.health - 1),
                 hitStunUntil := now + enemyHitStunMs,
                 chaseUntil := now + enemyForgetMs }).health ≤ 0 := by
    rw [knockbackEnemy_health]
    simp only
    exact max_le le_rfl (by linarith)
  unfold resolveEnemyHit
  rw [if_pos halive, if_pos hdead]
  exact ⟨rfl, rfl, rfl, rfl, rfl, rfl, rfl⟩

/-- C4: whenever a projectile impact reduces an alive enemy's health to 0
(`health ≤ 1` before the single point of damage), the enemy enters the
dead state with `deadUntil = now + respawn delay`, health reset to
maximum, patrol parameter and direction reset to `0` and `+1`, position
reset to the spawn base, chase and hit-stun cleared; for every time from
`deadUntil` on it counts as alive again. -/
theorem C4_death_respawn (n : Vec2) (now : ℚ) (edef : EnemyDef) (e : EnemyState)
    (halive : e.deadUntil ≤ now) (hlow : e.health ≤ 1) :
    (resolveEnemyHit n now edef e).deadUntil = now + enemyRespawnMs ∧
    (resolveEnemyHit n now edef e).health = enemyMaxHealth ∧
    (resolveEnemyHit n now edef e).patrolT = 0 ∧
    (resolveEnemyHit n now edef e).patrolDir = 1 ∧
    (resolveEnemyHit n now edef e).pos = edef.base ∧
    (resolveEnemyHit n now edef e).chaseUntil = 0 ∧
    (resolveEnemyHit n now edef e).hitStunUntil = 0 ∧
    (∀ t, now + enemyRespawnMs ≤ t → (resolveEnemyHit n now edef e).deadUntil ≤ t) := by
  obtain ⟨h1, h2, h3, h4, h5, h6, h7⟩ := resolveEnemyHit_death n now edef e halive hlow
  exact ⟨h1, h2, h3, h4, h5, h6, h7, fun t ht => h1 ▸ ht⟩

/-- Witness for C4: a one-health enemy hit at time 100 respawns at its base
with full health, dead until 3100. -/
theorem C4_witness :
    (resolveEnemyHit ⟨1, 0⟩ 100 ⟨⟨27/10, 3/2⟩, ⟨16/5, 0⟩, 1/2, 1/10⟩
        { pos := ⟨3, 3/2⟩, patrolT := 1/2, patrolDir := 1, chaseUntil := 0,
          hitStunUntil := 0, deadUntil := 0, lastDamageAt := -99999,
          health := 1, animTime := 0 }).deadUntil = 100 + enemyRespawnMs ∧
    (resolveEnemyHit ⟨1, 0⟩ 100 ⟨⟨27/10, 3/2⟩, ⟨16/5, 0⟩, 1/2, 1/10⟩
        { pos := ⟨3, 3/2⟩, patrolT := 1/2, patrolDir := 1, chaseUntil := 0,
          hitStunUntil := 0, deadUntil := 0, lastDamageAt := -99999,
          health := 1, animTime := 0 }).health = enemyMaxHealth ∧
    (resolveEnemyHit ⟨1, 0⟩ 100 ⟨⟨27/10, 3/2⟩, ⟨16/5, 0⟩, 1/2, 1/10⟩
        { pos := ⟨3, 3/2⟩, patrolT := 1/2, patrolDir := 1, chaseUntil := 0,
          hitStunUntil := 0, deadUntil := 0, lastDamageAt := -99999,
          health := 1, animTime := 0 }).pos = ⟨27/10, 3/2⟩ := by
  have h := C4_death_respawn ⟨1, 0⟩ 100 ⟨⟨27/10, 3/2⟩, ⟨16/5, 0⟩, 1/2, 1/10⟩
    { pos := ⟨3, 3/2⟩, patrolT := 1/2, patrolDir := 1, chaseUntil := 0,
      hitStunUntil := 0, deadUntil := 0, lastDamageAt := -99999,
      health := 1, animTime := 0 } (by norm_num) (by norm_num)
  exact ⟨h.1, h.2.1, h.2.2.2.2.1⟩

/-! ## C9 -/

/-- C9: the patrol parameter is in `[0,1]` and the direction is `±1` at
initialisation for every phase value, after every patrol ping-pong update
(for any incoming parameter), and after the death reset. -/
theorem C9_patrol_invariant :
    (∀ e : EnemyDef,
        0 ≤ (initEnemyState e).patrolT ∧ (initEnemyState e).patrolT ≤ 1 ∧
        ((initEnemyState e).patrolDir = 1 ∨ (initEnemyState e).patrolDir = -1)) ∧
    (∀ t dir speed dt : ℚ, dir = 1 ∨ dir = -1 →
        0 ≤ (patrolAdvance t dir speed dt).1 ∧ (patrolAdvance t dir speed dt).1 ≤ 1 ∧
        ((patrolAdvance t dir speed dt).2 = 1 ∨ (patrolAdvance t dir speed dt).2 = -1)) ∧
    (∀ (n : Vec2) (now : ℚ) (edef : EnemyDef) (e : EnemyState),
        e.deadUntil ≤ now → e.health ≤ 1 →
        (resolveEnemyHit n now edef e).patrolT = 0 ∧
        (resolveEnemyHit n now edef e).patrolDir = 1) := by
  refine ⟨fun e => ?_, fun t dir speed dt hdir => ?_, fun n now edef e h1 h2 => ?_⟩
  · have hm := normPhase_mem e.phase
    unfold initEnemyState
    dsimp only
    by_cases h : jsMod (jsMod e.phase 2 + 2) 2 ≤ 1
    · simp only [if_pos h]
      exact ⟨by linarith [hm.1], h, by trivial⟩
    · simp only [if_neg h]
      have h' : 1 < jsMod (jsMod e.phase 2 + 2) 2 := lt_of_not_le h
      exact ⟨by linarith [hm.2], by linarith, by trivial⟩
  · unfold patrolAdvance
    by_cases h1 : 1 < t + dir * speed * dt
    · simp only [h1, reduceIte]
      exact ⟨by norm_num, le_rfl, by trivial⟩
    · by_cases h2 : t + dir * speed * dt < 0
      · simp only [h1, h2, reduceIte]
        exact ⟨le_rfl, by norm_num, by trivial⟩
      · simp only [h1, h2, reduceIte]
        exact ⟨le_of_not_lt h2, le_of_not_lt h1, hdir⟩
  · exact ⟨(resolveEnemyHit_death n now edef e h1 h2).2.2.1,
      (resolveEnemyHit_death n now edef e h1 h2).2.2.2.1⟩

/-- Witness for C9 at concrete values: a negative phase initialises inside
the invariant, the update clamps an overshooting parameter, and the death
reset restores `t = 0`, `dir = 1`. -/
theorem C9_witness :
    (0 ≤ (initEnemyState ⟨⟨27/10, 3/2⟩, ⟨16/5, 0⟩, 1/2, -33/10⟩).patrolT ∧
      (initEnemyState ⟨⟨27/10, 3/2⟩, ⟨16/5, 0⟩, 1/2, -33/10⟩).patrolT ≤ 1) ∧
    (0 ≤ (patrolAdvance (9/10) 1 (1/2) (1/2)).1 ∧
      (patrolAdvance (9/10) 1 (1/2) (1/2)).1 ≤ 1) := by
  refine ⟨⟨?_, ?_⟩, ?_, ?_⟩
  · exact (C9_patrol_invariant.1 ⟨⟨27/10, 3/2⟩, ⟨16/5, 0⟩, 1/2, -33/10⟩).1
  · exact (C9_patrol_invariant.1 ⟨⟨27/10, 3/2⟩, ⟨16/5, 0⟩, 1/2, -33/10⟩).2.1
  · exact (C9_patrol_invariant.2.1 (9/10) 1 (1/2) (1/2) (Or.inl rfl)).1
  · exact (C9_patrol_invariant.2.1 (9/10) 1 (1/2) (1/2) (Or.inl rfl)).2.1

/-! ## C2 -/

/-- C2 counterexample: occlusion is not symmetric.  From the passable
point `(3.5, 1.5)` to `(3.5, 2.5)` (a point inside the wall cell `(3,2)`)
the traversal crosses into that wall cell half way and reports occlusion;
in the opposite direction the start cell is never tested, the path to the
target is clear, and the wall beyond is crossed only past the target, so
no occlusion is reported. -/
theorem C2_counterexample :
    isOccluded ⟨7/2, 3/2⟩ ⟨7/2, 5/2⟩ = true ∧
    isOccluded ⟨7/2, 5/2⟩ ⟨7/2, 3/2⟩ = false := by
  exact ⟨by decide, by decide⟩

set_option maxRecDepth 1000000 in
/-- C2 amended: `isOccluded(A,B) = isOccluded(B,A)` for every pair of
passable cell centres that share a row or a column (exhaustive check over
the shipped map).  Full symmetry fails when an endpoint lies inside a wall
cell or within the 0.05 end tolerance of one, and on exact diagonal
tie-breaks (for example cell centres `(9.5, 1.5)` and `(10.5, 2.5)`). -/
theorem C2_rowcol_symmetry : symCheck = true := by decide

/-! ## C3 -/

/-- C3 counterexample: a projectile whose impact window is skipped by the
frame times (previous frame before `hitAt`, next frame after
`hitAt + 200`) is removed from the live set with `resolved` still `false`:
the flag transitions zero times, not exactly once. -/
theorem C3_counterexample :
    runP (some exampleShot) [1201] = none ∧
    resolveCount exampleShot [1201] = 0 := by
  exact ⟨by decide, by decide⟩

theorem stepP_of_lt (p : Projectile) (now : ℚ) (hp : p.resolved = false)
    (hlt : now < p.hitAt) : stepP p now = some p := by
  unfold stepP
  rw [if_neg fun hc => absurd hc.2 (by push_neg; linarith),
      if_neg fun hc => absurd hc.2 (by push_neg; exact hlt)]

theorem stepP_flip (p : Projectile) (now : ℚ) (hp : p.resolved = false)
    (h1 : p.hitAt ≤ now) (h2 : now ≤ p.hitAt + 200) :
    stepP p now = some { p with resolved := true, flashUntil := now + 140 } := by
  unfold stepP
  rw [if_neg fun hc => absurd hc.2 (by push_neg; exact h2),
      if_pos ⟨by simp [hp], h1⟩]

theorem stepP_resolved_stay (p : Projectile) (now : ℚ) (hp : p.resolved = true) :
    stepP p now = none ∨ stepP p now = some p := by
  unfold stepP
  split
  · exact Or.inl rfl
  · rw [if_neg fun hc => by simp [hp] at hc]
    exact Or.inr rfl

theorem stepP_eq_none (p : Projectile) (now : ℚ) (hdur : 0 < p.duration)
    (h : stepP p now = none) :
    p.startTime + p.duration ≤ now ∧ p.hitAt + 200 < now := by
  unfold stepP at h
  split at h
  · rename_i hc
    refine ⟨?_, hc.2⟩
    have h1 : (1:ℚ) ≤ (now - p.startTime) / p.duration :=
      le_trans hc.1 (min_le_right _ _)
    have h2 := (le_div_iff₀ hdur).mp h1
    linarith
  · split at h <;> exact absurd h (by simp)

theorem stepP_some_resolved_iff (p : Projectile) (now : ℚ) (q : Projectile)
    (h : stepP p now = some q) (hp : p.resolved = false) :
    q.resolved = true ↔ p.hitAt ≤ now := by
  unfold stepP at h
  split at h
  · exact absurd h (by simp)
  · split at h
    · rename_i hb
      injection h with h'
      subst h'
      exact ⟨fun _ => hb.2, fun _ => rfl⟩
    · rename_i hb
      injection h with h'
      subst h'
      rw [hp]
      constructor
      · intro hfalse
        exact absurd hfalse (by simp)
      · intro hc
        exact absurd ⟨by simp [hp], hc⟩ hb

theorem resolveCount_zero_of_resolved :
    ∀ (ts : List ℚ) (p : Projectile), p.resolved = true → resolveCount p ts = 0 := by
  intro ts
  induction ts with
  | nil => intro p _; rfl
  | cons now ts ih =>
    intro p hp
    unfold resolveCount
    rcases stepP_resolved_stay p now hp with h | h <;> rw [h]
    · rfl
    · simp [hp, ih p hp]

theorem resolveCount_le_one : ∀ (ts : List ℚ) (p : Projectile), resolveCount p ts ≤ 1 := by
  intro ts
  induction ts with
  | nil => intro p; exact Nat.zero_le 1
  | cons now ts ih =>
    intro p
    unfold resolveCount
    cases h : stepP p now with
    | none => exact Nat.zero_le 1
    | some q =>
      simp only [h, Option.elim_some]
      by_cases hflip : (q.resolved && !p.resolved) = true
      · have hq : q.resolved = true := ((Bool.and_eq_true _ _).mp hflip).1
        rw [if_pos hflip, resolveCount_zero_of_resolved ts q hq]
      · rw [if_neg hflip]
        simpa using ih q

theorem resolveCount_eq_one :
    ∀ (ts : List ℚ) (p : Projectile), p.resolved = false →
      ts.Pairwise (· ≤ ·) → (∃ w ∈ ts, p.hitAt ≤ w ∧ w ≤ p.hitAt + 200) →
      resolveCount p ts = 1 := by
  intro ts
  induction ts with
  | nil =>
    intro p _ _ hw
    rcases hw with ⟨w, hmem, _⟩
    exact absurd hmem (List.not_mem_nil w)
  | cons now ts ih =>
    intro p hp hsorted hw
    rcases hw with ⟨w, hmem, hw1, hw2⟩
    by_cases hlt : now < p.hitAt
    · have hwts : w ∈ ts := by
        rcases List.mem_cons.mp hmem with rfl | h
        · exact absurd hlt (not_lt.mpr hw1)
        · exact h
      unfold resolveCount
      rw [stepP_of_lt p now hp hlt]
      simp only [Option.elim_some]
      rw [if_neg (by simp [hp])]
      rw [Nat.zero_add]
      exact ih p hp (List.pairwise_cons.mp hsorted).2 ⟨w, hwts, hw1, hw2⟩
    · have hge : p.hitAt ≤ now := le_of_not_lt hlt
      have hle : now ≤ p.hitAt + 200 := by
        rcases List.mem_cons.mp hmem with rfl | h
        · exact hw2
        · have hnw : now ≤ w := (List.pairwise_cons.mp hsorted).1 w h
          linarith
      unfold resolveCount
      rw [stepP_flip p now hp hge hle]
      simp only [Option.elim_some]
      simp [hp, resolveCount_zero_of_resolved ts
        { p with resolved := true, flashUntil := now + 140 } rfl]

/-- C3 amended: over the frame loop, a projectile's `resolved` flag is
monotone and flips at most once, any flip happens no earlier than the
scheduled impact time `hitAt`, and removal from the live set happens only
after the travel is complete (`startTime + duration ≤ now`) and the
impact-flash grace window has passed (`hitAt + 200 < now`).  The flip
happens *exactly* once provided some frame falls inside the window
`[hitAt, hitAt + 200]` (the counterexample shows it is lost otherwise);
independently of this per-frame loop, a projectile can also be dropped
early by the fixed-capacity ring when an 11th shot is fired. -/
theorem C3_projectile_lifecycle (p : Projectile) (hdur : 0 < p.duration) :
    (∀ now, stepP p now = none → p.startTime + p.duration ≤ now ∧ p.hitAt + 200 < now) ∧
    (∀ now q, stepP p now = some q →
        (p.resolved = true → q.resolved = true) ∧
        (p.resolved = false → (q.resolved = true ↔ p.hitAt ≤ now))) ∧
    (∀ ts, resolveCount p ts ≤ 1) ∧
    (∀ ts, p.resolved = false → ts.Pairwise (· ≤ ·) →
        (∃ w ∈ ts, p.hitAt ≤ w ∧ w ≤ p.hitAt + 200) → resolveCount p ts = 1) := by
  refine ⟨fun now h => stepP_eq_none p now hdur h, fun now q h => ⟨fun hp => ?_, ?_⟩,
    fun ts => resolveCount_le_one ts p, fun ts hp hs hw => resolveCount_eq_one ts p hp hs hw⟩
  · rcases stepP_resolved_stay p now hp with h' | h'
    · rw [h] at h'
      exact absurd h' (by simp)
    · rw [h] at h'
      injection h' with h''
      rw [h'']
      exact hp
  · exact fun hp => stepP_some_resolved_iff p now q h hp

/-- Witness for C3: the example projectile with sorted frames
`[500, 1100, 1500]` — frame 1100 lies in the impact window — resolves
exactly once. -/
theorem C3_witness : resolveCount exampleShot [500, 1100, 1500] = 1 :=
  (C3_projectile_lifecycle exampleShot (by norm_num [exampleShot])).2.2.2 [500, 1100, 1500]
    rfl (by norm_num) ⟨1100, by simp, by norm_num [exampleShot], by norm_num [exampleShot]⟩

theorem isWall_false_bounds {x y : ℤ} (h : isWall x y = false) :
    0 ≤ x ∧ x < 12 ∧ 0 ≤ y ∧ y < 7 := by
  unfold isWall isWallG at h
  split at h
  · exact absurd h (by simp)
  · rename_i hg
    have hw : mkWidth MAP = 12 := by decide
    have hh : mkHeight MAP = 7 := by decide
    rw [hw, hh] at hg
    simp only [Bool.or_eq_true, decide_eq_true_eq, not_or, not_lt, not_le] at hg
    omega

theorem ddaStep_stepX (st : DDAState) : (ddaStep st).1.stepX = st.stepX := by
  unfold ddaStep
  split <;> rfl

theorem ddaStep_stepY (st : DDAState) : (ddaStep st).1.stepY = st.stepY := by
  unfold ddaStep
  split <;> rfl

theorem castBudget_decrease (st : DDAState)
    (hsx : st.stepX = 1 ∨ st.stepX = -1) (hsy : st.stepY = 1 ∨ st.stepY = -1)
    (hx0 : 0 ≤ st.mapX) (hx1 : st.mapX < 12) (hy0 : 0 ≤ st.mapY) (hy1 : st.mapY < 7) :
    castBudget (ddaStep st).1 + 1 ≤ castBudget st := by
  unfold castBudget ddaStep
  by_cases hc : oLt st.sideDistX st.sideDistY = true <;>
    [rw [if_pos hc]; rw [if_neg hc]] <;>
    dsimp only <;>
    rcases hsx with h | h <;> rcases hsy with h' | h' <;> rw [h, h'] <;> simp <;> omega

theorem castLoop_wall : ∀ (fuel : ℕ) (st : DDAState) (r : DDAState × ℕ),
    castLoop st fuel = some r → isWall r.1.mapX r.1.mapY = true := by
  intro fuel
  induction fuel with
  | zero =>
    intro st r h
    exact absurd h (by simp [castLoop])
  | succ fuel ih =>
    intro st r h
    unfold castLoop at h
    split at h
    · rename_i hw
      injection h with h'
      rw [← h']
      exact hw
    · exact ih _ r h

theorem castLoop_isSome : ∀ (fuel : ℕ) (st : DDAState),
    (st.stepX = 1 ∨ st.stepX = -1) → (st.stepY = 1 ∨ st.stepY = -1) →
    0 ≤ st.mapX → st.mapX < 12 → 0 ≤ st.mapY → st.mapY < 7 →
    castBudget st ≤ fuel → (castLoop st fuel).isSome = true := by
  intro fuel
  induction fuel with
  | zero =>
    intro st hsx hsy hx0 hx1 hy0 hy1 hb
    exfalso
    unfold castBudget at hb
    rcases hsx with h | h <;> rcases hsy with h' | h' <;> rw [h, h'] at hb <;>
      simp at hb <;> omega
  | succ fuel ih =>
    intro st hsx hsy hx0 hx1 hy0 hy1 hb
    unfold castLoop
    split
    · rfl
    · rename_i hw
      have hwf : isWall (ddaStep st).1.mapX (ddaStep st).1.mapY = false :=
        Bool.not_eq_true _ ▸ eq_false_of_ne_true hw
      have hbnd := isWall_false_bounds hwf
      have hdec := castBudget_decrease st hsx hsy hx0 hx1 hy0 hy1
      exact ih (ddaStep st).1 (ddaStep_stepX st ▸ hsx) (ddaStep_stepY st ▸ hsy)
        hbnd.1 hbnd.2.1 hbnd.2.2.1 hbnd.2.2.2 (by omega)

theorem ddaInit_step_cases (f d : Vec2) :
    ((ddaInit f d).stepX = 1 ∨ (ddaInit f d).stepX = -1) ∧
    ((ddaInit f d).stepY = 1 ∨ (ddaInit f d).stepY = -1) := by
  unfold ddaInit axisInit
  dsimp only
  constructor
  · by_cases h : d.x < 0
    · rw [if_pos h]
      exact Or.inr rfl
    · rw [if_neg h]
      by_cases h' : d.x = 0 <;> [rw [if_pos h']; rw [if_neg h']] <;> exact Or.inl rfl
  · by_cases h : d.y < 0
    · rw [if_pos h]
      exact Or.inr rfl
    · rw [if_neg h]
      by_cases h' : d.y = 0 <;> [rw [if_pos h']; rw [if_neg h']] <;> exact Or.inl rfl

/-- C6: from any origin inside the map and any non-zero direction, the DDA
loop of `castRayToWall` terminates with a wall hit within the fuel bound —
every out-of-grid cell (in particular every border cell, all of which are
walls on the shipped map) counts as a wall, so the moving cell index can
never leave the grid without stopping the loop. -/
theorem C6_cast_terminates (f d : Vec2)
    (hx : 0 ≤ f.x ∧ f.x < 12) (hy : 0 ≤ f.y ∧ f.y < 7)
    (hd : ¬(d.x = 0 ∧ d.y = 0)) :
    ∃ w, castRayToWall f d = some w ∧ isWall w.mapX w.mapY = true := by
  have hmx0 : 0 ≤ ⌊f.x⌋ := Int.le_floor.mpr (by exact_mod_cast hx.1)
  have hmx1 : ⌊f.x⌋ < 12 := Int.floor_lt.mpr (by exact_mod_cast hx.2)
  have hmy0 : 0 ≤ ⌊f.y⌋ := Int.le_floor.mpr (by exact_mod_cast hy.1)
  have hmy1 : ⌊f.y⌋ < 7 := Int.floor_lt.mpr (by exact_mod_cast hy.2)
  have hsteps := ddaInit_step_cases f d
  have hmx : (ddaInit f d).mapX = ⌊f.x⌋ := rfl
  have hmy : (ddaInit f d).mapY = ⌊f.y⌋ := rfl
  have hbudget : castBudget (ddaInit f d) ≤ 64 := by
    unfold castBudget
    rw [hmx, hmy]
    rcases hsteps.1 with h | h <;> rcases hsteps.2 with h' | h' <;> rw [h, h'] <;>
      simp <;> omega
  have hsome := castLoop_isSome 64 (ddaInit f d) hsteps.1 hsteps.2
    (hmx ▸ hmx0) (hmx ▸ hmx1) (hmy ▸ hmy0) (hmy ▸ hmy1) hbudget
  rcases Option.isSome_iff_exists.mp hsome with ⟨r, hr⟩
  have hsome2 : (castRayToWall f d).isSome = true := by
    unfold castRayToWall
    rw [hr]
    rfl
  rcases Option.isSome_iff_exists.mp hsome2 with ⟨w, hw⟩
  refine ⟨w, hw, ?_⟩
  unfold castRayToWall at hw
  rw [hr, Option.map_some'] at hw
  injection hw with hw'
  rw [← hw']
  exact castLoop_wall 64 _ r hr

/-- Witness for C6: the ray east from `(3.5, 1.5)` terminates on the wall
cell `(11, 1)`. -/
theorem C6_witness :
    ∃ w, castRayToWall ⟨7/2, 3/2⟩ ⟨1, 0⟩ = some w ∧ isWall w.mapX w.mapY = true :=
  C6_cast_terminates ⟨7/2, 3/2⟩ ⟨1, 0⟩ (by norm_num) (by norm_num) (by norm_num)

theorem shotQualifies_eq_aimCone (ppos pdir : Vec2) (time : ℚ) (e : ShotTarget)
    (hocc : isOccluded ppos e.pos = false) :
    shotQualifies ppos pdir time e = aimConeOK ppos pdir time e := by
  unfold shotQualifies aimConeOK
  rw [hocc]
  simp

theorem shotQualifies_alive (ppos pdir : Vec2) (time : ℚ) (e : ShotTarget)
    (h : shotQualifies ppos pdir time e = true) : e.deadUntil ≤ time := by
  unfold shotQualifies at h
  exact (of_decide_eq_true ((Bool.and_eq_true _ _).mp h).1).1

theorem selectGo_none (ppos pdir : Vec2) (time : ℚ) :
    ∀ (es : List ShotTarget) (i : ℕ) (best : Option (ℕ × ℚ)),
      selectGo ppos pdir time i es best = none →
      best = none ∧ ∀ e ∈ es, shotQualifies ppos pdir time e = false := by
  intro es
  induction es with
  | nil =>
    intro i best h
    exact ⟨h, fun e he => absurd he (List.not_mem_nil e)⟩
  | cons e es ih =>
    intro i best h
    unfold selectGo at h
    rcases ih (i + 1) _ h with ⟨hb, hall⟩
    by_cases hk : (shotQualifies ppos pdir time e &&
        betterThan (shotDistSq ppos e) best) = true
    · rw [if_pos hk] at hb
      exact absurd hb (by simp)
    · rw [if_neg hk] at hb
      subst hb
      refine ⟨rfl, fun e' he' => ?_⟩
      rcases List.mem_cons.mp he' with rfl | hmem
      · by_contra hq
        rw [Bool.not_eq_false] at hq
        exact hk (by rw [hq]; rfl)
      · exact hall e' hmem

theorem selectGo_spec (ppos pdir : Vec2) (time : ℚ) :
    ∀ (es : List ShotTarget) (i : ℕ) (best : Option (ℕ × ℚ)) (k : ℕ) (b : ℚ),
      selectGo ppos pdir time i es best = some (k, b) →
      (∀ j e', es.get? j = some e' → shotQualifies ppos pdir time e' = true →
          b ≤ shotDistSq ppos e') ∧
      (best = some (k, b) ∨ ∃ j e', es.get? j = some e' ∧ k = i + j ∧
          shotQualifies ppos pdir time e' = true ∧ b = shotDistSq ppos e') ∧
      (∀ kb, best = some kb → b ≤ kb.2) := by
  intro es
  induction es with
  | nil =>
    intro i best k b h
    unfold selectGo at h
    subst h
    refine ⟨fun j e' hj => absurd hj (by simp), Or.inl rfl, fun kb hkb => ?_⟩
    injection hkb with h'
    rw [← h']
  | cons e es ih =>
    intro i best k b h
    unfold selectGo at h
    by_cases hk : (shotQualifies ppos pdir time e &&
        betterThan (shotDistSq ppos e) best) = true
    · rw [if_pos hk] at h
      rcases ih (i + 1) _ k b h with ⟨hA, hB, hC⟩
      have hble : b ≤ shotDistSq ppos e := hC (i, shotDistSq ppos e) rfl
      refine ⟨?_, ?_, ?_⟩
      · intro j e' hj hq
        cases j with
        | zero =>
          injection hj with hj'
          subst hj'
          exact hble
        | succ j => exact hA j e' (by simpa using hj) hq
      · rcases hB with hB | ⟨j, e', hj, hk', hq', hb'⟩
        · rw [Option.some_inj, Prod.mk.injEq] at hB
          exact Or.inr ⟨0, e, rfl, by omega, ((Bool.and_eq_true _ _).mp hk).1, hB.2.symm⟩
        · exact Or.inr ⟨j + 1, e', by simpa using hj, by omega, hq', hb'⟩
      · intro kb hkb
        have hbt : betterThan (shotDistSq ppos e) best = true :=
          ((Bool.and_eq_true _ _).mp hk).2
        rw [hkb] at hbt
        exact le_trans hble (le_of_lt (of_decide_eq_true hbt))
    · rw [if_neg hk] at h
      rcases ih (i + 1) _ k b h with ⟨hA, hB, hC⟩
      refine ⟨?_, ?_, hC⟩
      · intro j e' hj hq
        cases j with
        | zero =>
          injection hj with hj'
          subst hj'
          cases hbest : best with
          | none =>
            rw [hbest] at hk
            rw [hq] at hk
            exact absurd rfl hk
          | some bb =>
            rw [hbest] at hk
            rw [hq] at hk
            have hge : bb.2 ≤ shotDistSq ppos e := by
              by_contra hlt
              exact hk (by simp [betterThan, lt_of_not_le hlt])
            exact le_trans (hC bb hbest) hge
        | succ j => exact hA j e' (by simpa using hj) hq
      · rcases hB with hB | ⟨j, e', hj, hk', hq', hb'⟩
        · exact Or.inl hB
        · exact Or.inr ⟨j + 1, e', by simpa using hj, by omega, hq', hb'⟩

/-- C1 amended: with clear line of sight to every listed enemy, a shot
resolves against an enemy exactly when some enemy qualifies for the aim
cone — forward projection at least 0.98 and perpendicular offset at most
the hit radius, *and at distance at least 0.001 from the shooter* (the
source's skip that the original claim omits) — and the nearest such enemy
is strictly nearer than the wall along the facing ray; that nearest
qualifying enemy is the one hit, and otherwise the shot resolves against
the wall point. -/
theorem C1_hit_resolution (ppos pdir : Vec2) (time : ℚ) (es : List ShotTarget)
    (hocc : ∀ e ∈ es, isOccluded ppos e.pos = false)
    (w : WallHit) (hw : castRayToWall ppos pdir = some w) :
    ∃ r, tryShootResolve ppos pdir time es = some r ∧
      ((∃ i e, r.hitEnemyIndex = some i ∧ es.get? i = some e ∧
          aimConeOK ppos pdir time e = true ∧
          (0:ℚ) < w.dist ∧ shotDistSq ppos e < w.dist ^ 2 ∧
          r.hitPoint = e.pos ∧
          (∀ j e', es.get? j = some e' → aimConeOK ppos pdir time e' = true →
            shotDistSq ppos e ≤ shotDistSq ppos e')) ∨
       (r.hitEnemyIndex = none ∧ r.hitPoint = ⟨w.x, w.y⟩ ∧
          (∀ j e', es.get? j = some e' → aimConeOK ppos pdir time e' = true →
            ¬((0:ℚ) < w.dist ∧ shotDistSq ppos e' < w.dist ^ 2)))) := by
  have hconv : ∀ e ∈ es, shotQualifies ppos pdir time e = aimConeOK ppos pdir time e :=
    fun e he => shotQualifies_eq_aimCone ppos pdir time e (hocc e he)
  unfold tryShootResolve
  rw [hw, Option.map_some']
  cases hsel : selectBest ppos pdir time es with
  | none =>
    refine ⟨_, rfl, Or.inr ⟨rfl, rfl, fun j e' hj hq hcond => ?_⟩⟩
    have hnone := selectGo_none ppos pdir time es 0 none hsel
    have hfalse := hnone.2 e' (List.get?_mem hj)
    rw [hconv e' (List.get?_mem hj), hq] at hfalse
    exact absurd hfalse (by simp)
  | some kb =>
    obtain ⟨k, b⟩ := kb
    dsimp only
    have hspec := selectGo_spec ppos pdir time es 0 none k b hsel
    rcases hspec with ⟨hA, hB, _⟩
    rcases hB with hB | ⟨j, e', hj, hk', hq', hb'⟩
    · exact absurd hB (by simp)
    · have hkj : k = j := by omega
      subst hkj
      by_cases hcond : (0:ℚ) < w.dist ∧ b < w.dist ^ 2
      · rw [if_pos hcond, hj]
        dsimp only
        rw [if_pos (shotQualifies_alive ppos pdir time e' hq')]
        refine ⟨_, rfl, Or.inl ⟨k, e', rfl, hj,
          (hconv e' (List.get?_mem hj)) ▸ hq', hcond.1, hb' ▸ hcond.2, rfl,
          fun j2 e2 hj2 hq2 => ?_⟩⟩
        rw [← hb']
        exact hA j2 e2 hj2 ((hconv e2 (List.get?_mem hj2)).symm ▸ hq2)
      · rw [if_neg hcond]
        refine ⟨_, rfl, Or.inr ⟨rfl, rfl, fun j2 e2 hj2 hq2 hcond2 => ?_⟩⟩
        have hble := hA j2 e2 hj2 ((hconv e2 (List.get?_mem hj2)).symm ▸ hq2)
        exact hcond ⟨hcond2.1, lt_of_le_of_lt hble hcond2.2⟩

/-- C1 counterexample: an alive, unoccluded enemy straight ahead at
distance 0.0005 — which qualifies for the aim cone exactly as the claim
states it (projection 1 ≥ 0.98, offset 0 ≤ 0.35) and is strictly nearer
than the wall 7.5 away — is skipped by the source's `dist < 0.001` guard,
and the shot resolves against the wall instead of that enemy. -/
theorem C1_counterexample :
    (tryShootResolve ⟨7/2, 3/2⟩ ⟨1, 0⟩ 0 [⟨⟨7/2 + 1/2000, 3/2⟩, 0⟩]).map
        ShotResolution.hitEnemyIndex = some none ∧
    specAimQualifies ⟨7/2, 3/2⟩ ⟨1, 0⟩ 0 ⟨⟨7/2 + 1/2000, 3/2⟩, 0⟩ = true ∧
    (0:ℚ) < 15/2 ∧
    shotDistSq ⟨7/2, 3/2⟩ ⟨⟨7/2 + 1/2000, 3/2⟩, 0⟩ < (15/2) ^ 2 ∧
    (tryShootResolve ⟨7/2, 3/2⟩ ⟨1, 0⟩ 0 [⟨⟨7/2 + 1/2000, 3/2⟩, 0⟩]).map
        ShotResolution.wallDist = some (15/2) := by
  refine ⟨by decide, by decide, by norm_num, by decide, by decide⟩

/-- Witness for C1: a clear corridor shot at an enemy four cells ahead
resolves against that enemy. -/
theorem C1_witness :
    ∃ r, tryShootResolve ⟨7/2, 3/2⟩ ⟨1, 0⟩ 0 [⟨⟨15/2, 3/2⟩, 0⟩] = some r ∧
      ((∃ i e, r.hitEnemyIndex = some i ∧ ([⟨⟨15/2, 3/2⟩, 0⟩] : List ShotTarget).get? i = some e ∧
          aimConeOK ⟨7/2, 3/2⟩ ⟨1, 0⟩ 0 e = true ∧
          (0:ℚ) < (15/2 : ℚ) ∧ shotDistSq ⟨7/2, 3/2⟩ e < (15/2 : ℚ) ^ 2 ∧
          r.hitPoint = e.pos ∧
          (∀ j e', ([⟨⟨15/2, 3/2⟩, 0⟩] : List ShotTarget).get? j = some e' →
            aimConeOK ⟨7/2, 3/2⟩ ⟨1, 0⟩ 0 e' = true →
            shotDistSq ⟨7/2, 3/2⟩ e ≤ shotDistSq ⟨7/2, 3/2⟩ e')) ∨
       (r.hitEnemyIndex = none ∧ r.hitPoint = ⟨(11:ℚ), 3/2⟩ ∧
          (∀ j e', ([⟨⟨15/2, 3/2⟩, 0⟩] : List ShotTarget).get? j = some e' →
            aimConeOK ⟨7/2, 3/2⟩ ⟨1, 0⟩ 0 e' = true →
            ¬((0:ℚ) < (15/2 : ℚ) ∧ shotDistSq ⟨7/2, 3/2⟩ e' < (15/2 : ℚ) ^ 2)))) :=
  C1_hit_resolution ⟨7/2, 3/2⟩ ⟨1, 0⟩ 0 [⟨⟨15/2, 3/2⟩, 0⟩]
    (by decide) ⟨11, 1, 0, 15/2, 11, 3/2⟩ (by decide)

theorem floor_add_radius_of_up {px nx : ℚ} (hlt : px < nx) (hb : nx - px ≤ 13/100)
    (hne : ⌊px⌋ < ⌊nx⌋) : ⌊nx + radius⌋ = ⌊nx⌋ := by
  have h1 : px < (⌊px⌋ : ℚ) + 1 := Int.lt_floor_add_one px
  have h2 : ((⌊px⌋ : ℚ) + 1) ≤ (⌊nx⌋ : ℚ) := by exact_mod_cast hne
  have h3 : (⌊nx⌋ : ℚ) ≤ nx := Int.floor_le nx
  rw [Int.floor_eq_iff]
  unfold radius
  refine ⟨by push_cast; linarith, by push_cast; linarith⟩

theorem floor_sub_radius_of_down {px nx : ℚ} (hlt : nx < px) (hb : px - nx ≤ 13/100)
    (hne : ⌊nx⌋ < ⌊px⌋) : ⌊nx - radius⌋ = ⌊nx⌋ := by
  have h1 : (⌊px⌋ : ℚ) ≤ px := Int.floor_le px
  have h2 : ((⌊nx⌋ : ℚ) + 1) ≤ (⌊px⌋ : ℚ) := by exact_mod_cast hne
  have h3 : nx < (⌊nx⌋ : ℚ) + 1 := Int.lt_floor_add_one nx
  rw [Int.floor_eq_iff]
  unfold radius
  refine ⟨by push_cast; linarith, by push_cast; linarith⟩

theorem moveX_ok {px py nx : ℚ} (hinv : isWall ⌊px⌋ ⌊py⌋ = false)
    (hb : |nx - px| ≤ 13/100)
    (hc : isWall ⌊nx + jsSign (nx - px) * radius⌋ ⌊py⌋ = false) :
    isWall ⌊nx⌋ ⌊py⌋ = false := by
  rcases lt_trichotomy px nx with hlt | heq | hgt
  · have hs : jsSign (nx - px) = 1 := if_pos (by linarith)
    rcases eq_or_lt_of_le (Int.floor_mono (le_of_lt hlt)) with hfe | hflt
    · rw [← hfe]
      exact hinv
    · have hstable := floor_add_radius_of_up hlt (le_trans (le_abs_self _) hb) hflt
      rw [hs, one_mul, hstable] at hc
      exact hc
  · rw [← heq]
    exact hinv
  · have hs : jsSign (nx - px) = -1 := by
      unfold jsSign
      rw [if_neg (by linarith), if_pos (by linarith)]
    rcases eq_or_lt_of_le (Int.floor_mono (le_of_lt hgt)) with hfe | hflt
    · rw [hfe]
      exact hinv
    · have hb' : px - nx ≤ 13/100 := by
        have := le_trans (le_abs_self (px - nx)) (abs_sub_comm px nx ▸ hb)
        linarith
      have hstable := floor_sub_radius_of_down hgt hb' hflt
      rw [hs, neg_one_mul, ← sub_eq_add_neg, hstable] at hc
      exact hc

theorem moveY_ok {x1 py ny : ℚ} (hinv : isWall ⌊x1⌋ ⌊py⌋ = false)
    (hb : |ny - py| ≤ 13/100)
    (hc : isWall ⌊x1⌋ ⌊ny + jsSign (ny - py) * radius⌋ = false) :
    isWall ⌊x1⌋ ⌊ny⌋ = false := by
  rcases lt_trichotomy py ny with hlt | heq | hgt
  · have hs : jsSign (ny - py) = 1 := if_pos (by linarith)
    rcases eq_or_lt_of_le (Int.floor_mono (le_of_lt hlt)) with hfe | hflt
    · rw [← hfe]
      exact hinv
    · have hstable := floor_add_radius_of_up hlt (le_trans (le_abs_self _) hb) hflt
      rw [hs, one_mul, hstable] at hc
      exact hc
  · rw [← heq]
    exact hinv
  · have hs : jsSign (ny - py) = -1 := by
      unfold jsSign
      rw [if_neg (by linarith), if_pos (by linarith)]
    rcases eq_or_lt_of_le (Int.floor_mono (le_of_lt hgt)) with hfe | hflt
    · rw [hfe]
      exact hinv
    · have hb' : py - ny ≤ 13/100 := by
        have := le_trans (le_abs_self (py - ny)) (abs_sub_comm py ny ▸ hb)
        linarith
      have hstable := floor_sub_radius_of_down hgt hb' hflt
      rw [hs, neg_one_mul, ← sub_eq_add_neg, hstable] at hc
      exact hc

theorem floor_mem_pm (x : ℚ) : ⌊x⌋ = ⌊x - radius⌋ ∨ ⌊x⌋ = ⌊x + radius⌋ := by
  have h1 : ⌊x - radius⌋ ≤ ⌊x⌋ := Int.floor_mono (by unfold radius; linarith)
  have h2 : ⌊x⌋ ≤ ⌊x + radius⌋ := Int.floor_mono (by unfold radius; linarith)
  have h3 : ⌊x + radius⌋ ≤ ⌊x - radius⌋ + 1 := by
    have hlt : x + radius < ((⌊x - radius⌋ + 2 : ℤ) : ℚ) := by
      have := Int.lt_floor_add_one (x - radius)
      unfold radius at *
      push_cast
      linarith
    have := Int.floor_lt.mpr hlt
    omega
  omega

theorem canOccupy_center {x y : ℚ} (h : canOccupy x y radius = true) :
    isWall ⌊x⌋ ⌊y⌋ = false := by
  unfold canOccupy at h
  simp only [Bool.and_eq_true, Bool.not_eq_true'] at h
  rcases floor_mem_pm x with hx | hx <;> rcases floor_mem_pm y with hy | hy <;>
    rw [hx, hy] <;> tauto

theorem moveXStep_inv (pos : Vec2) (nextX : ℚ)
    (hinv : isWall ⌊pos.x⌋ ⌊pos.y⌋ = false) (hb : |nextX - pos.x| ≤ 13/100) :
    isWall ⌊(moveXStep pos nextX).x⌋ ⌊(moveXStep pos nextX).y⌋ = false ∧
    (moveXStep pos nextX).y = pos.y := by
  unfold moveXStep
  split
  · exact ⟨hinv, rfl⟩
  · rename_i hc
    exact ⟨moveX_ok hinv hb (by simpa using hc), rfl⟩

theorem moveYStep_inv (pos : Vec2) (nextY : ℚ)
    (hinv : isWall ⌊pos.x⌋ ⌊pos.y⌋ = false) (hb : |nextY - pos.y| ≤ 13/100) :
    isWall ⌊(moveYStep pos nextY).x⌋ ⌊(moveYStep pos nextY).y⌋ = false := by
  unfold moveYStep
  split
  · exact hinv
  · rename_i hc
    exact moveY_ok hinv hb (by simpa using hc)

theorem pushXStep_inv (pos : Vec2) (tx : ℚ)
    (hinv : isWall ⌊pos.x⌋ ⌊pos.y⌋ = false) :
    isWall ⌊(pushXStep pos tx).x⌋ ⌊(pushXStep pos tx).y⌋ = false ∧
    (pushXStep pos tx).y = pos.y := by
  unfold pushXStep
  split
  · rename_i hc
    exact ⟨canOccupy_center hc, rfl⟩
  · exact ⟨hinv, rfl⟩

theorem pushYStep_inv (pos : Vec2) (ty : ℚ)
    (hinv : isWall ⌊pos.x⌋ ⌊pos.y⌋ = false) :
    isWall ⌊(pushYStep pos ty).x⌋ ⌊(pushYStep pos ty).y⌋ = false := by
  unfold pushYStep
  split
  · rename_i hc
    exact canOccupy_center hc
  · exact hinv

theorem applyOp_inv (pos : Vec2) (op : MoveOp)
    (hinv : isWall ⌊pos.x⌋ ⌊pos.y⌋ = false) (hop : opOK op) :
    isWall ⌊(applyOp pos op).x⌋ ⌊(applyOp pos op).y⌋ = false := by
  cases op with
  | move d =>
    unfold applyOp moveWithCollision
    obtain ⟨hx, hxy⟩ := moveXStep_inv pos (pos.x + d.x) hinv (by simpa using hop.1)
    apply moveYStep_inv _ _ hx
    rw [hxy]
    simpa using hop.2
  | push t =>
    unfold applyOp applyPushGuarded
    exact pushYStep_inv _ _ (pushXStep_inv pos t.x hinv).1

theorem simulate_inv : ∀ (ops : List MoveOp) (p0 : Vec2),
    isWall ⌊p0.x⌋ ⌊p0.y⌋ = false → (∀ op ∈ ops, opOK op) →
    isWall ⌊(simulate p0 ops).x⌋ ⌊(simulate p0 ops).y⌋ = false := by
  intro ops
  induction ops with
  | nil =>
    intro p0 h _
    exact h
  | cons op ops ih =>
    intro p0 h hops
    exact ih (applyOp p0 op) (applyOp_inv p0 op h (hops op (List.mem_cons_self op ops)))
      fun o ho => hops o (List.mem_cons_of_mem op ho)

/-- C5 amended: over any sequence of per-frame movement displacements
within the engine's per-frame bound (`speed · dtMax = 0.13` per axis) and
arbitrary guarded enemy push-outs, the player's *centre* never ends a
frame inside a wall cell — equivalently, a wall cell can never contain the
centre, so the circle's overlap with any wall cell never exceeds the
collision radius.  The circle itself *can* end a frame overlapping a wall
cell diagonally by up to the radius (see the counterexample), which is
what the original claim rules out. -/
theorem C5_center_containment (p0 : Vec2) (ops : List MoveOp)
    (h0 : isWall ⌊p0.x⌋ ⌊p0.y⌋ = false) (hops : ∀ op ∈ ops, opOK op) :
    isWall ⌊(simulate p0 ops).x⌋ ⌊(simulate p0 ops).y⌋ = false ∧
    (∀ cx cy : ℤ, isWall cx cy = true →
      ¬((cx : ℚ) ≤ (simulate p0 ops).x ∧ (simulate p0 ops).x < cx + 1 ∧
        (cy : ℚ) ≤ (simulate p0 ops).y ∧ (simulate p0 ops).y < cy + 1)) := by
  have hmain := simulate_inv ops p0 h0 hops
  refine ⟨hmain, fun cx cy hwall hin => ?_⟩
  have hfx : ⌊(simulate p0 ops).x⌋ = cx := by
    rw [Int.floor_eq_iff]
    exact ⟨hin.1, by push_cast; exact hin.2.1⟩
  have hfy : ⌊(simulate p0 ops).y⌋ = cy := by
    rw [Int.floor_eq_iff]
    exact ⟨hin.2.2.1, by push_cast; exact hin.2.2.2⟩
  rw [hfx, hfy, hwall] at hmain
  exact absurd hmain (by simp)

set_option maxRecDepth 1000000 in
theorem cexStage1 :
    simulate ⟨1079/100, 579/100⟩ (List.replicate 25 (MoveOp.move ⟨-13/100, 0⟩)) =
      ⟨754/100, 579/100⟩ := by decide

set_option maxRecDepth 1000000 in
theorem cexStage2 :
    simulate ⟨754/100, 579/100⟩
        (List.replicate 14 (MoveOp.move ⟨0, -13/100⟩) ++ [MoveOp.move ⟨0, -7/100⟩]) =
      ⟨754/100, 39/10⟩ := by decide

set_option maxRecDepth 1000000 in
theorem cexStage3 :
    simulate ⟨754/100, 39/10⟩ (List.replicate 5 (MoveOp.move ⟨-13/100, 0⟩)) =
      ⟨689/100, 39/10⟩ := by decide

theorem cexRun : simulate ⟨1079/100, 579/100⟩ cexOps = ⟨689/100, 39/10⟩ := by
  unfold cexOps simulate
  rw [List.foldl_append, List.foldl_append]
  show simulate (simulate (simulate ⟨1079/100, 579/100⟩ _) _) _ = _
  rw [cexStage1, cexStage2, cexStage3]

set_option maxRecDepth 1000000 in
/-- C5 counterexample: from the spawn pose, a sequence of per-frame
displacements each within the engine's per-frame bound (west along the
open row 5, north up the open column 7, then west along row 3) ends a
frame at `(6.89, 3.90)`, where the player circle of radius 0.2 penetrates
the wall cell `(6,4)` to depth 0.1 — half the radius, far beyond any
negligible epsilon.  The per-axis leading-edge checks never sample the
diagonal cell, so the move is accepted. -/
theorem C5_counterexample :
    (cexOps.all fun op => decide (opOK op)) = true ∧
    simulate ⟨1079/100, 579/100⟩ cexOps = ⟨689/100, 39/10⟩ ∧
    isWall 6 4 = true ∧
    distSqPointToCell ⟨689/100, 39/10⟩ 6 4 ≤ (radius - 1/10) ^ 2 ∧
    (radius - 1/10 : ℚ) < radius := by
  refine ⟨by decide, cexRun, by decide, by decide, by norm_num [radius]⟩

/-- Witness for C5 on the same trace: the amended invariant holds there —
the final centre cell `(6,3)` is passable even though the circle overlaps
the wall cell below. -/
theorem C5_witness :
    isWall ⌊(simulate ⟨1079/100, 579/100⟩ cexOps).x⌋
      ⌊(simulate ⟨1079/100, 579/100⟩ cexOps).y⌋ = false :=
  (C5_center_containment ⟨1079/100, 579/100⟩ cexOps (by decide) (by decide)).1

end RaycastGame
